import Mathlib

/-!
# Verification of the osteopathy planner's scheduling core

Shallow embedding of the repository's scheduling code:
* `Models` — `models.py` (the `Schedule` / `ScheduledBlock` conflict model),
* `Loader` — `data_loader.py` (`_parse_weeks_expr`, `_expand_availability`),
* `Sched`  — `scheduler.py` (the date-based `Scheduler` and its
  `schedule_subjects` allocation loop).

Python conventions are modelled explicitly: machine integers are `Int`,
Python `set`s of small value types are `Finset`s (or lists with
insert-if-absent semantics where only membership/emptiness is observed),
Python dicts are association lists with last-binding-wins lookup, and code
that can raise is embedded in `Except String`.
-/

set_option maxHeartbeats 1600000

namespace Planner

/-- Half-day time slots, `TimeSlot` in both `models.py` and `scheduler.py`
(the two enums are identical). -/
inductive TimeSlot where
  | morning
  | afternoon
deriving DecidableEq, Repr

namespace Models

/-- Model of `models.ScheduledBlock`: one placed unit of teaching.  Ids are strings
in `models.py`; `room_number` is an optional display field. -/
structure ScheduledBlock where
  subject_id : String
  lecturer_id : String
  student_group_id : String
  room_id : String
  week : Int
  day : Int
  timeslot : TimeSlot
  room_number : Option String := none
deriving DecidableEq, Repr

/-- Model of `models.ScheduledBlock.conflicts_with`: two blocks conflict iff they
share the same (week, day, timeslot) and share lecturer, room, or student
group. -/
def ScheduledBlock.conflicts_with (self other : ScheduledBlock) : Bool :=
  if self.week ≠ other.week ∨ self.day ≠ other.day ∨ self.timeslot ≠ other.timeslot then
    false
  else
    self.lecturer_id = other.lecturer_id ∨
    self.room_id = other.room_id ∨
    self.student_group_id = other.student_group_id

/-- Model of `models.Schedule`: the complete schedule. -/
structure Schedule where
  blocks : List ScheduledBlock := []
  weeks : Int := 15
  days_per_week : Int := 5
deriving DecidableEq, Repr

/-- Model of `models.Schedule.add_block`: scan the existing blocks; on any conflict
return `false` with the schedule unchanged, otherwise append the block and
return `true`.  Python mutates `self`; the embedding returns the pair
(result, updated schedule). -/
def Schedule.add_block (self : Schedule) (block : ScheduledBlock) : Bool × Schedule :=
  if self.blocks.any (fun existing_block => block.conflicts_with existing_block) then
    (false, self)
  else
    (true, { self with blocks := self.blocks ++ [block] })

/-- Model of `models.Schedule.is_slot_available`: true iff no existing block at the
given (week, day, timeslot) uses the given lecturer, room, or group. -/
def Schedule.is_slot_available (self : Schedule) (week day : Int) (timeslot : TimeSlot)
    (lecturer_id room_id student_group_id : String) : Bool :=
  self.blocks.all (fun block =>
    ¬(block.week = week ∧ block.day = day ∧ block.timeslot = timeslot ∧
      (block.lecturer_id = lecturer_id ∨ block.room_id = room_id ∨
       block.student_group_id = student_group_id)))

/-- Sample data used by closed witness statements. -/
def sampleBlockA : ScheduledBlock :=
  { subject_id := "s1", lecturer_id := "l1", student_group_id := "g1",
    room_id := "r1", week := 1, day := 1, timeslot := .morning }

/-- A candidate that clashes with `sampleBlockA` (same key, same lecturer). -/
def sampleBlockB : ScheduledBlock :=
  { subject_id := "s2", lecturer_id := "l1", student_group_id := "g2",
    room_id := "r2", week := 1, day := 1, timeslot := .morning }

/-- A candidate that does not clash with `sampleBlockA` (different day). -/
def sampleBlockC : ScheduledBlock :=
  { subject_id := "s2", lecturer_id := "l1", student_group_id := "g2",
    room_id := "r2", week := 1, day := 2, timeslot := .morning }

/-- A one-block schedule used by the witnesses. -/
def sampleSchedule : Schedule := { blocks := [sampleBlockA] }

end Models

namespace Loader

/-- JSON-like Python values as produced by `json.load` (floats are omitted;
the availability code never computes with them).  Object keys are strings,
as in JSON. -/
inductive JVal where
  | null
  | bool (b : Bool)
  | int (n : Int)
  | str (s : String)
  | arr (xs : List JVal)
  | obj (fields : List (String × JVal))

/-- Python truthiness for JSON values. -/
def pyTruthy : JVal → Bool
  | .null => false
  | .bool b => b
  | .int n => n ≠ 0
  | .str s => s ≠ ""
  | .arr xs => !xs.isEmpty
  | .obj fs => !fs.isEmpty

/-- Model of `dict.get(key, default)`; Python keeps the last binding of a
duplicated key, hence the reversed search. -/
def pyGet (fields : List (String × JVal)) (key : String) (dflt : JVal) : JVal :=
  match fields.reverse.find? (fun p => p.1 = key) with
  | some p => p.2
  | none => dflt

/-- Model of `d.get(key, []) or []` — a falsy value is replaced by `[]`. -/
def pyGetOrEmptyList (fields : List (String × JVal)) (key : String) : JVal :=
  let v := pyGet fields key (.arr [])
  if pyTruthy v then v else .arr []

/-- Model of `d.get(key, {}) or {}` — a falsy value is replaced by `{}`. -/
def pyGetOrEmptyObj (fields : List (String × JVal)) (key : String) : JVal :=
  let v := pyGet fields key (.obj [])
  if pyTruthy v then v else .obj []

/-- Python iteration (`for x in v`): lists yield their elements, strings
yield one-character strings, dicts yield their keys; other values raise
`TypeError`. -/
def pyIter : JVal → Except String (List JVal)
  | .arr xs => .ok xs
  | .str s => .ok (s.data.map fun c => .str (String.mk [c]))
  | .obj fs => .ok (fs.map fun p => .str p.1)
  | _ => .error "TypeError: object is not iterable"

/-- Model of `isinstance(v, int)` plus the int value — Python bools are ints
(`True == 1`, `False == 0`); every other value gives `none`. -/
def pyAsInt : JVal → Option Int
  | .int n => some n
  | .bool b => some (if b then 1 else 0)
  | _ => none

/-- Whitespace characters recognized by Python's `str.strip()` / `int()`
(the ASCII ones; exotic Unicode spaces are never fed to the resolver). -/
def pyIsSpace (c : Char) : Bool :=
  c = ' ' ∨ c = '\t' ∨ c = '\n' ∨ c = '\r' ∨ c = Char.ofNat 11 ∨ c = Char.ofNat 12

/-- Model of `str.strip()`. -/
def pyStrip (s : String) : String :=
  String.mk (((s.data.dropWhile pyIsSpace).reverse.dropWhile pyIsSpace).reverse)

/-- Digit-string accumulator for Python's `int()`: single underscores are
allowed between digits; `afterDigit` tracks whether an underscore may occur
here. -/
def pyDigitsAux : List Char → Bool → Nat → Option Nat
  | [], afterDigit, acc => if afterDigit then some acc else none
  | c :: rest, afterDigit, acc =>
    if c.isDigit then pyDigitsAux rest true (acc * 10 + (c.toNat - 48))
    else if c = '_' ∧ afterDigit then pyDigitsAux rest false acc
    else none

/-- Model of Python's `int(str)`: surrounding whitespace stripped, one
optional sign, then digits (underscores only between digits); `none` models
`ValueError`. -/
def pyInt (s : String) : Option Int :=
  match ((s.data.dropWhile pyIsSpace).reverse.dropWhile pyIsSpace).reverse with
  | '+' :: rest => (pyDigitsAux rest false 0).map (fun n => (n : Int))
  | '-' :: rest => (pyDigitsAux rest false 0).map (fun n => -(n : Int))
  | rest => (pyDigitsAux rest false 0).map (fun n => (n : Int))

/-- Splitter for `expr.split(',')` (keeps empty parts, as Python does). -/
def splitCommaAux : List Char → List Char → List String
  | [], cur => [String.mk cur.reverse]
  | c :: rest, cur =>
    if c = ',' then String.mk cur.reverse :: splitCommaAux rest []
    else splitCommaAux rest (c :: cur)

/-- Model of `expr.split(',')`. -/
def pySplitComma (s : String) : List String := splitCommaAux s.data []

/-- Model of `part.split('-', 1)` guarded by `'-' in part`: `none` when the
string has no dash, otherwise the pieces before and after the first dash. -/
def splitFirstDash (s : String) : Option (String × String) :=
  match s.data.dropWhile (fun c => c ≠ '-') with
  | [] => none
  | _ :: after => some (String.mk (s.data.takeWhile (fun c => c ≠ '-')), String.mk after)

/-- Model of the `DAY_NAME_TO_INT` table from `data_loader.py`. -/
def DAY_NAME_TO_INT : List (String × Int) :=
  [("Mon", 1), ("Monday", 1), ("Tue", 2), ("Tuesday", 2), ("Wed", 3), ("Wednesday", 3),
   ("Thu", 4), ("Thursday", 4), ("Fri", 5), ("Friday", 5)]

/-- Exact (case-sensitive) lookup in `DAY_NAME_TO_INT`. -/
def dayNameToInt (s : String) : Option Int :=
  (DAY_NAME_TO_INT.find? (fun p => p.1 = s)).map (fun p => p.2)

/-- Model of `DAY_NAME_TO_INT.get(v, None)` for an arbitrary value: lists
and dicts are unhashable and raise `TypeError`; any other non-string value
is hashable and simply absent from the table. -/
def dictGetDay : JVal → Except String (Option Int)
  | .str s => .ok (dayNameToInt s)
  | .arr _ => .error "TypeError: unhashable type"
  | .obj _ => .error "TypeError: unhashable type"
  | _ => .ok none

/-- Model of `range(a, b + 1)` over `Int`. -/
def intRangeIncl (a b : Int) : List Int :=
  (List.range (b + 1 - a).toNat).map (fun i => a + (i : Int))

/-- Body of `_parse_weeks_expr` once the expression is known to be a
string: comma-separated ints and dash ranges, inverted ranges auto-swapped,
weeks outside `1..maxWeek` ignored, malformed parts skipped. -/
def parseWeeksStr (s : String) (maxWeek : Int) : Finset Int :=
  let parts := ((pySplitComma s).map pyStrip).filter (fun p => p ≠ "")
  parts.foldl (fun weeks part =>
    match splitFirstDash part with
    | some ab =>
      match pyInt ab.1, pyInt ab.2 with
      | some s0, some e0 =>
        let se := if s0 > e0 then (e0, s0) else (s0, e0)
        (intRangeIncl se.1 se.2).foldl (fun w2 w =>
          if 1 ≤ w ∧ w ≤ maxWeek then insert w w2 else w2) weeks
      | _, _ => weeks
    | none =>
      match pyInt part with
      | some w => if 1 ≤ w ∧ w ≤ maxWeek then insert w weeks else weeks
      | none => weeks) ∅

/-- Model of `_parse_weeks_expr(expr, max_week)`.  A falsy argument yields
the empty set (`if not expr`); a truthy non-string raises on `.split`. -/
def _parse_weeks_expr (expr : JVal) (max_week : Int) : Except String (Finset Int) :=
  if pyTruthy expr then
    match expr with
    | .str s => .ok (parseWeeksStr s max_week)
    | _ => .error "AttributeError: split"
  else .ok ∅

/-- Model of `TimeSlot.MORNING if slot == 'morning' else TimeSlot.AFTERNOON`
— every value other than the string "morning" maps to afternoon. -/
def slotOf : JVal → TimeSlot
  | .str "morning" => .morning
  | _ => .afternoon

/-- An availability slot: (week, weekday, timeslot). -/
abbrev Slot3 := Int × Int × TimeSlot

/-- Contribution of one explicit-list entry: a length-3 list whose week and
day are ints inside `1..semester_weeks` × `1..5`; anything else is skipped.
This mirrors the old-format branch of `_expand_availability`. -/
def entryVal (sw : Int) (item : JVal) : Option Slot3 :=
  match item with
  | .arr [w, d, s] =>
    match pyAsInt w, pyAsInt d with
    | some wi, some di =>
      if wi < 1 ∨ wi > sw ∨ di < 1 ∨ di > 5 then none
      else some (wi, di, slotOf s)
    | _, _ => none
  | _ => none

/-- Explicit-list branch of `_expand_availability`: fold the valid entries
into the availability set. -/
def expandList (items : List JVal) (sw : Int) : Finset Slot3 :=
  items.foldl (fun acc item =>
    match entryVal sw item with
    | some v => insert v acc
    | none => acc) ∅

/-- One `days` entry of a pattern: strip the day name, look it up exactly;
unrecognized names and non-list slot values contribute nothing, otherwise
every (week, day, slot) combination is added. -/
def patternDayStep (weeks_set : Finset Int) (acc : Finset Slot3) (kv : String × JVal) :
    Finset Slot3 :=
  match dayNameToInt (pyStrip kv.1) with
  | none => acc
  | some day_int =>
    match kv.2 with
    | .arr slots =>
      slots.foldl (fun a slot => a ∪ weeks_set.image (fun w => (w, day_int, slotOf slot))) acc
    | _ => acc

/-- One pattern of the new schema: parse the week expression (default
`"1-<semester_weeks>"`), read the `days` dict (`.items()` raises on a
truthy non-dict), and add each matching combination. -/
def applyPattern (sw : Int) (acc : Finset Slot3) (p : JVal) : Except String (Finset Slot3) :=
  match p with
  | .obj pf =>
    match _parse_weeks_expr (pyGet pf "weeks" (.str ("1-" ++ toString sw))) sw with
    | .error err => .error err
    | .ok weeks_set =>
      -- days_map = pattern.get('days', {}) or {}; days_map.items() raises on
      -- a truthy non-dict (the falsy case was already replaced by {}).
      match pyGetOrEmptyObj pf "days" with
      | .obj dfs => .ok (dfs.foldl (patternDayStep weeks_set) acc)
      | _ => .error "AttributeError: items"
  | _ => .ok acc

/-- One exception entry: removals first (unbounded), then additions
(bounded by the semester); entries with a non-int week or unknown day are
skipped, but an unhashable `day` value raises. -/
def applyException (sw : Int) (acc : Finset Slot3) (e : JVal) : Except String (Finset Slot3) :=
  match e with
  | .obj ef =>
    match dictGetDay (pyGet ef "day" .null) with
    | .error err => .error err
    | .ok day_int =>
      match pyAsInt (pyGet ef "week" .null), day_int with
      | some wk, some di =>
        match pyIter (pyGetOrEmptyList ef "remove") with
        | .error err => .error err
        | .ok removes =>
          let acc1 := removes.foldl (fun a slot => a.erase (wk, di, slotOf slot)) acc
          match pyIter (pyGetOrEmptyList ef "add") with
          | .error err => .error err
          | .ok adds =>
            .ok (adds.foldl (fun a slot =>
              if 1 ≤ wk ∧ wk ≤ sw then insert (wk, di, slotOf slot) a else a) acc1)
      | _, _ => .ok acc
  | _ => .ok acc

/-- One blackout entry: for every week of the (auto-swapped) inclusive
range that lies in the semester and every listed day (all five when the
list resolves empty), discard both half-day slots. -/
def applyBlackout (sw : Int) (acc : Finset Slot3) (b : JVal) : Except String (Finset Slot3) :=
  match b with
  | .obj bf =>
    match pyAsInt (pyGet bf "from_week" .null), pyAsInt (pyGet bf "to_week" .null) with
    | some f0, some t0 =>
      let ft := if f0 > t0 then (t0, f0) else (f0, t0)
      match pyIter (pyGetOrEmptyList bf "days") with
      | .error err => .error err
      | .ok dlist =>
        match dlist.mapM dictGetDay with
        | .error err => .error err
        | .ok dayOpts =>
          let day_ints0 := dayOpts.filterMap id
          let day_ints := if day_ints0.isEmpty then [1, 2, 3, 4, 5] else day_ints0
          .ok ((intRangeIncl ft.1 ft.2).foldl (fun a w =>
            if 1 ≤ w ∧ w ≤ sw then
              day_ints.foldl (fun a2 d =>
                (a2.erase (w, d, TimeSlot.morning)).erase (w, d, TimeSlot.afternoon)) a
            else a) acc)
    | _, _ => .ok acc
  | _ => .ok acc

/-- Model of `_expand_availability(raw_availability, semester_weeks)`:
explicit lists expand entry-by-entry; dicts run patterns, then exceptions,
then blackouts; anything else resolves to the empty set. -/
def _expand_availability (raw_availability : JVal) (semester_weeks : Int) :
    Except String (Finset Slot3) :=
  match raw_availability with
  | .arr items => .ok (expandList items semester_weeks)
  | .obj fields =>
    match pyIter (pyGetOrEmptyList fields "patterns") with
    | .error err => .error err
    | .ok patterns =>
      match patterns.foldlM (fun acc p => applyPattern semester_weeks acc p) ∅ with
      | .error err => .error err
      | .ok av1 =>
        match pyIter (pyGetOrEmptyList fields "exceptions") with
        | .error err => .error err
        | .ok exceptions =>
          match exceptions.foldlM (fun acc e => applyException semester_weeks acc e) av1 with
          | .error err => .error err
          | .ok av2 =>
            match pyIter (pyGetOrEmptyList fields "blackouts") with
            | .error err => .error err
            | .ok blackouts =>
              match blackouts.foldlM (fun acc b => applyBlackout semester_weeks acc b) av2 with
              | .error err => .error err
              | .ok av3 => .ok av3
  | _ => .ok ∅

/-- Cardinality of a successful expansion, `none` when it raised. -/
def resultCard (e : Except String (Finset Slot3)) : Option Nat :=
  match e with
  | .ok s => some s.card
  | .error _ => none

/-- Truth of "the call returned normally". -/
def exceptOk {α : Type} (e : Except String α) : Bool :=
  match e with
  | .ok _ => true
  | .error _ => false

/-- The single pattern of the spec's expansion example:
weeks "1-3", Monday morning+afternoon, Wednesday morning. -/
def examplePattern : JVal :=
  .obj [("weeks", .str "1-3"),
        ("days", .obj [("Mon", .arr [.str "morning", .str "afternoon"]),
                       ("Wed", .arr [.str "morning"])])]

/-- Pattern only. -/
def exampleRaw1 : JVal := .obj [("patterns", .arr [examplePattern])]

/-- Pattern plus the exception removing week-3 Wednesday morning. -/
def exampleRaw2 : JVal :=
  .obj [("patterns", .arr [examplePattern]),
        ("exceptions", .arr [.obj [("week", .int 3), ("day", .str "Wed"),
                                   ("remove", .arr [.str "morning"])]])]

/-- Pattern, exception, and the week-2 Monday blackout. -/
def exampleRaw3 : JVal :=
  .obj [("patterns", .arr [examplePattern]),
        ("exceptions", .arr [.obj [("week", .int 3), ("day", .str "Wed"),
                                   ("remove", .arr [.str "morning"])]]),
        ("blackouts", .arr [.obj [("from_week", .int 2), ("to_week", .int 2),
                                  ("days", .arr [.str "Mon"])]])]

/-- True for the values Python can iterate over (lists, strings, dicts). -/
def iterableV : JVal → Bool
  | .arr _ => true
  | .str _ => true
  | .obj _ => true
  | _ => false

/-- True exactly for strings. -/
def isStrV : JVal → Bool
  | .str _ => true
  | _ => false

/-- True exactly for dicts. -/
def isObjV : JVal → Bool
  | .obj _ => true
  | _ => false

/-- True exactly for lists. -/
def isArrV : JVal → Bool
  | .arr _ => true
  | _ => false

/-- True for hashable values (everything except lists and dicts). -/
def hashableV : JVal → Bool
  | .arr _ => false
  | .obj _ => false
  | _ => true

/-- Shape condition under which one pattern entry cannot raise: its `weeks`
value is falsy or a string, and its `days` value is falsy or a dict.
Non-dict entries are skipped and are always safe. -/
def patternShapeOk : JVal → Bool
  | .obj pf =>
    (!pyTruthy (pyGet pf "weeks" (.str "")) || isStrV (pyGet pf "weeks" (.str ""))) &&
    (!pyTruthy (pyGet pf "days" (.obj [])) || isObjV (pyGet pf "days" (.obj [])))
  | _ => true

/-- Shape condition under which one exception entry cannot raise: its `day`
value is hashable and its `remove` / `add` values are iterable after the
`or []` defaulting. -/
def exceptionShapeOk : JVal → Bool
  | .obj ef =>
    hashableV (pyGet ef "day" .null) &&
    iterableV (pyGetOrEmptyList ef "remove") &&
    iterableV (pyGetOrEmptyList ef "add")
  | _ => true

/-- Shape condition under which one blackout entry cannot raise: its `days`
value is iterable after defaulting and yields only hashable items. -/
def blackoutShapeOk : JVal → Bool
  | .obj bf =>
    (match pyIter (pyGetOrEmptyList bf "days") with
     | .ok ds => ds.all hashableV
     | .error _ => false)
  | _ => true

/-- Shape condition under which `_expand_availability` cannot raise: for a
dict input, the three phase containers are iterable after defaulting and
every entry satisfies its phase's shape condition; every non-dict input is
safe. -/
def wellShapedAvailability : JVal → Bool
  | .obj fields =>
    (match pyIter (pyGetOrEmptyList fields "patterns") with
     | .ok ps => ps.all patternShapeOk
     | .error _ => false) &&
    (match pyIter (pyGetOrEmptyList fields "exceptions") with
     | .ok es => es.all exceptionShapeOk
     | .error _ => false) &&
    (match pyIter (pyGetOrEmptyList fields "blackouts") with
     | .ok bs => bs.all blackoutShapeOk
     | .error _ => false)
  | _ => true

/-- A pattern whose `weeks` value is the integer 5: `_parse_weeks_expr`
calls `.split` on it and raises `AttributeError`. -/
def badWeeksRaw : JVal := .obj [("patterns", .arr [.obj [("weeks", .int 5)]])]

/-- The spec's backward-compatibility example list. -/
def exampleListRaw : JVal :=
  .arr [.arr [.int 1, .int 1, .str "morning"], .arr [.int 1, .int 2, .str "afternoon"]]

/-- An explicit-list entry for week 0 — the spec calls week 0 valid, the
code drops it. -/
def weekZeroListRaw : JVal := .arr [.arr [.int 0, .int 1, .str "morning"]]

/-- A pattern using a lower-case day name — the spec calls the day-name
mapping case-insensitive, the code's dict lookup is exact. -/
def lowerCaseDayRaw : JVal :=
  .obj [("patterns", .arr [.obj [("weeks", .str "1"),
                                 ("days", .obj [("monday", .arr [.str "morning"])])]])]

/-- The same pattern with the exact capitalization the table contains. -/
def titleCaseDayRaw : JVal :=
  .obj [("patterns", .arr [.obj [("weeks", .str "1"),
                                 ("days", .obj [("Monday", .arr [.str "morning"])])]])]

end Loader

namespace Sched

/-- Dates are modelled by their proleptic-Gregorian ordinal
(`date.toordinal()`); ordinal 1 (0001-01-01) is a Monday, so
`date.weekday()` is `(d + 6) % 7` with Monday = 0.  Ordering and
`timedelta(days=1)` become integer ordering and `+ 1`. -/
abbrev Date := Int

/-- Model of `date.weekday()`. -/
def pyWeekday (d : Date) : Int := (d + 6) % 7

/-- Model of `scheduler.Lecturer`.  `availability` is the
`Dict[date, Set[TimeSlot]]` as an insertion-ordered association list whose
value lists represent duplicate-free sets; `preferred_days` is the set of
weekday numbers as a duplicate-free list (only membership, emptiness and
insertion are ever used on it). -/
structure Lecturer where
  id : Int
  name : String
  subject_id : Int
  importance : Int
  availability : List (Date × List TimeSlot) := []
  preferred_days : List Int := []
deriving DecidableEq, Repr

/-- Dict lookup in `availability` (keys of a Python dict are unique). -/
def Lecturer.availabilityAt (l : Lecturer) (day : Date) : Option (List TimeSlot) :=
  (l.availability.find? (fun p => p.1 = day)).map (fun p => p.2)

/-- Model of `Lecturer.is_available`: false when the day is absent,
otherwise membership of the slot in the day's set. -/
def Lecturer.is_available (l : Lecturer) (day : Date) (time_slot : TimeSlot) : Bool :=
  match l.availabilityAt day with
  | none => false
  | some slots => slots.contains time_slot

/-- Model of `Lecturer.is_preferred_day`: with no preferences set, all days
are acceptable. -/
def Lecturer.is_preferred_day (l : Lecturer) (day : Date) : Bool :=
  if l.preferred_days.isEmpty then true
  else l.preferred_days.contains (pyWeekday day)

/-- Set-insert into `preferred_days` (`set.add`; `add_preferred_day`'s
`0 <= weekday <= 6` guard cannot fire at its only call site, where the
weekday comes from `range(7)`). -/
def insertPreferred (pd : List Int) (wd : Int) : List Int :=
  if pd.contains wd then pd else pd ++ [wd]

/-- Model of `scheduler.Subject` (`required_blocks <= 50` is validated at
construction; the allocator does not depend on it). -/
structure Subject where
  id : Int
  name : String
  required_blocks : Int
deriving DecidableEq, Repr

/-- Model of `scheduler.Room`. -/
structure Room where
  id : Int
  name : String
  capacity : Int
deriving DecidableEq, Repr

/-- Model of `scheduler.StudentGroup`. -/
structure StudentGroup where
  id : Int
  name : String
  size : Int
deriving DecidableEq, Repr

/-- Model of `scheduler.ScheduledBlock`. -/
structure ScheduledBlock where
  subject_id : Int
  lecturer_id : Int
  room_id : Int
  student_group_id : Int
  day : Date
  time_slot : TimeSlot
  block_number : Int
deriving DecidableEq, Repr

/-- Stable-sort insertion step for the strict precedence `gt`: the new
element is placed before the first element it strictly precedes, hence
after all earlier-inserted equals. -/
def stableInsert {α : Type} (gt : α → α → Bool) (a : α) : List α → List α
  | [] => [a]
  | b :: bs => if gt a b then a :: b :: bs else b :: stableInsert gt a bs

/-- Stable sort by the strict precedence `gt`.  Python's `sorted` /
`list.sort` are stable, and every stable sort of a total preorder computes
the same list, so insertion sort is a faithful model of
`sorted(key=k, reverse=True)` with `gt a b := k a > k b`. -/
def stableSortBy {α : Type} (gt : α → α → Bool) (l : List α) : List α :=
  l.foldl (fun acc a => stableInsert gt a acc) []

/-- Model of `Scheduler.get_top_lecturers`: stable sort by importance
descending, first `count` taken (`[:min(count, len)]` equals `take`). -/
def get_top_lecturers (lecturers : List Lecturer) (count : Nat) : List Lecturer :=
  (stableSortBy (fun a b => b.importance < a.importance) lecturers).take count

/-- Model of `Scheduler.get_available_days`: every date from
`semester_start` to `semester_end` inclusive. -/
def get_available_days (semester_start semester_end : Date) : List Date :=
  (List.range (semester_end + 1 - semester_start).toNat).map
    (fun i => semester_start + (i : Int))

/-- Model of `Scheduler.is_room_available`: no block in the schedule uses
the room at that day and slot. -/
def is_room_available (schedule : List ScheduledBlock) (room_id : Int) (day : Date)
    (time_slot : TimeSlot) : Bool :=
  schedule.all (fun block =>
    ¬(block.room_id = room_id ∧ block.day = day ∧ block.time_slot = time_slot))

/-- Model of `Scheduler.is_student_group_available`. -/
def is_student_group_available (schedule : List ScheduledBlock) (student_group_id : Int)
    (day : Date) (time_slot : TimeSlot) : Bool :=
  schedule.all (fun block =>
    ¬(block.student_group_id = student_group_id ∧ block.day = day ∧
      block.time_slot = time_slot))

/-- Model of `Scheduler.find_available_room`: the first free room in list
order, by id. -/
def find_available_room (rooms : List Room) (schedule : List ScheduledBlock) (day : Date)
    (time_slot : TimeSlot) : Option Int :=
  (rooms.find? (fun room => is_room_available schedule room.id day time_slot)).map
    (fun r => r.id)

/-- Per-lecturer tally of available half-day slots per weekday
(`weekday_availability`); only commutative sums are accumulated, so the
dict iteration order is irrelevant. -/
def weekdayAvailability (l : Lecturer) : Int → Int :=
  l.availability.foldl
    (fun f p => fun wd => if wd = pyWeekday p.1 then f wd + p.2.length else f wd)
    (fun _ => 0)

/-- Strict precedence of the stable descending sort on the Python tuple
key `(count, -usage[wd])` used in `assign_preferred_days_to_lecturers`. -/
def weekdayKeyGt (usage : Int → Int) (a b : Int × Int) : Bool :=
  a.2 > b.2 ∨ (a.2 = b.2 ∧ -usage a.1 > -usage b.1)

/-- One lecturer's step of `assign_preferred_days_to_lecturers`: weekdays
with positive availability, sorted by (count, -usage) descending, the top
1-2 added to `preferred_days` and counted into the shared usage tally;
lecturers with no availability are skipped. -/
def assignOne (usage : Int → Int) (l : Lecturer) : Lecturer × (Int → Int) :=
  let wa := weekdayAvailability l
  let available_weekdays :=
    ((List.range 7).map (fun i => ((i : Int), wa (i : Int)))).filter (fun p => p.2 > 0)
  if available_weekdays.isEmpty then (l, usage)
  else
    let chosen := (stableSortBy (weekdayKeyGt usage) available_weekdays).take 2
    let pd := chosen.foldl (fun pd p => insertPreferred pd p.1) l.preferred_days
    let usage2 := chosen.foldl (fun u p => fun wd => if wd = p.1 then u wd + 1 else u wd) usage
    ({ l with preferred_days := pd }, usage2)

/-- Visit the indexed lecturers in importance order, producing the
per-index updated lecturers while threading the weekday usage. -/
def computeAssignments : List (Nat × Lecturer) → (Int → Int) → List (Nat × Lecturer)
  | [], _ => []
  | (i, l) :: rest, usage =>
    let r := assignOne usage l
    (i, r.1) :: computeAssignments rest r.2

/-- Model of `Scheduler.assign_preferred_days_to_lecturers`: the lecturers
are visited in stable importance-descending order, but the mutation lands
on the objects, so the list keeps its original order — modelled by sorting
index-lecturer pairs and writing the updates back by index. -/
def assign_preferred_days_to_lecturers (lecturers : List Lecturer) : List Lecturer :=
  let sortedIdx := stableSortBy (fun a b => b.2.importance < a.2.importance) lecturers.enum
  let updates := computeAssignments sortedIdx (fun _ => 0)
  lecturers.enum.map (fun p =>
    match updates.find? (fun u => u.1 = p.1) with
    | some u => u.2
    | none => p.2)

/-- Dict-of-subjects lookup: `{s.id: s for s in subjects}` keeps the last
subject for a duplicated id, then `.get`. -/
def subjectsGet (subjects : List Subject) (sid : Int) : Option Subject :=
  subjects.reverse.find? (fun s => s.id = sid)

/-- Innermost loop of `schedule_subjects`, over student groups at one
(day, slot): for each free group with a free room, append a block, until
`blocks_scheduled >= required_blocks` breaks the loop. -/
def tryGroups (lect : Lecturer) (subj : Subject) (day : Date) (ts : TimeSlot)
    (rooms : List Room) (groups : List StudentGroup)
    (schedule : List ScheduledBlock) (count : Int) : List ScheduledBlock × Int :=
  match groups with
  | [] => (schedule, count)
  | g :: gs =>
    if count ≥ subj.required_blocks then (schedule, count)
    else if ¬ is_student_group_available schedule g.id day ts then
      tryGroups lect subj day ts rooms gs schedule count
    else
      match find_available_room rooms schedule day ts with
      | none => tryGroups lect subj day ts rooms gs schedule count
      | some room_id =>
        tryGroups lect subj day ts rooms gs
          (schedule ++ [{ subject_id := subj.id, lecturer_id := lect.id,
                          room_id := room_id, student_group_id := g.id, day := day,
                          time_slot := ts, block_number := count + 1 }])
          (count + 1)

/-- Loop over the two half-day slots of one day: break when the count is
reached, skip slots where the lecturer is unavailable. -/
def trySlots (lect : Lecturer) (subj : Subject) (day : Date) (rooms : List Room)
    (groups : List StudentGroup) :
    List TimeSlot → List ScheduledBlock → Int → List ScheduledBlock × Int
  | [], schedule, count => (schedule, count)
  | ts :: rest, schedule, count =>
    if count ≥ subj.required_blocks then (schedule, count)
    else
      let r :=
        if ¬ lect.is_available day ts then (schedule, count)
        else tryGroups lect subj day ts rooms groups schedule count
      trySlots lect subj day rooms groups rest r.1 r.2

/-- One pass over the semester days.  `wantPreferred` is true in the first
pass (non-preferred days are skipped) and false in the second (preferred
days, already tried, are skipped). -/
def passDays (lect : Lecturer) (subj : Subject) (rooms : List Room)
    (groups : List StudentGroup) (wantPreferred : Bool) :
    List Date → List ScheduledBlock → Int → List ScheduledBlock × Int
  | [], schedule, count => (schedule, count)
  | day :: rest, schedule, count =>
    if count ≥ subj.required_blocks then (schedule, count)
    else if lect.is_preferred_day day ≠ wantPreferred then
      passDays lect subj rooms groups wantPreferred rest schedule count
    else
      let r := trySlots lect subj day rooms groups [TimeSlot.morning, TimeSlot.afternoon]
        schedule count
      passDays lect subj rooms groups wantPreferred rest r.1 r.2

/-- Scheduling of one lecturer's subject: lecturers whose subject id is
unknown are skipped; otherwise the preferred-day pass runs and, if blocks
remain, the any-other-day pass follows (the shortfall warning is only a
print). -/
def scheduleLecturer (subjects : List Subject) (rooms : List Room)
    (groups : List StudentGroup) (semester_days : List Date)
    (schedule : List ScheduledBlock) (lect : Lecturer) : List ScheduledBlock :=
  match subjectsGet subjects lect.subject_id with
  | none => schedule
  | some subj =>
    let r1 := passDays lect subj rooms groups true semester_days schedule 0
    if r1.2 < subj.required_blocks then
      (passDays lect subj rooms groups false semester_days r1.1 r1.2).1
    else r1.1

/-- Model of `Scheduler.schedule_subjects`: reset the schedule, assign
preferred days (mutating the lecturers), order lecturers as top-5 then
remaining by importance, and fill the schedule lecturer by lecturer.
Python mutates `self`; the embedding returns the produced schedule together
with the post-run lecturer list. -/
def schedule_subjects (lecturers : List Lecturer) (subjects : List Subject)
    (rooms : List Room) (groups : List StudentGroup)
    (semester_start semester_end : Date) : List ScheduledBlock × List Lecturer :=
  let lecturers2 := assign_preferred_days_to_lecturers lecturers
  let top_lecturers := get_top_lecturers lecturers2 5
  let top_ids := top_lecturers.map (fun l => l.id)
  let remaining := stableSortBy (fun a b => b.importance < a.importance)
    (lecturers2.filter (fun l => ¬ top_ids.contains l.id))
  let ordered := top_lecturers ++ remaining
  let semester_days := get_available_days semester_start semester_end
  (ordered.foldl
    (fun sched l => scheduleLecturer subjects rooms groups semester_days sched l) [],
   lecturers2)

/-- The fields of a `Lecturer` other than `preferred_days`. -/
def lecturerCore (l : Lecturer) : Int × String × Int × Int × List (Date × List TimeSlot) :=
  (l.id, l.name, l.subject_id, l.importance, l.availability)

/-- Failing input for the lecturer-double-booking property: one lecturer
(available Sunday-ordinal-0 morning only) teaching a 2-block subject to two
groups with two rooms over a one-day semester. -/
def cxLecturer : Lecturer :=
  { id := 1, name := "Dr. A", subject_id := 1, importance := 10,
    availability := [(0, [TimeSlot.morning])] }

/-- The 2-block subject of the failing input. -/
def cxSubject : Subject := { id := 1, name := "S1", required_blocks := 2 }

/-- Two rooms, so a second simultaneous block can find a free room. -/
def cxRooms : List Room :=
  [{ id := 1, name := "R1", capacity := 30 }, { id := 2, name := "R2", capacity := 30 }]

/-- Two student groups, so a second simultaneous block can find a free
group. -/
def cxGroups : List StudentGroup :=
  [{ id := 1, name := "G1", size := 25 }, { id := 2, name := "G2", size := 25 }]

/-- The schedule the allocator produces on the failing input. -/
def cxSchedule : List ScheduledBlock :=
  (schedule_subjects [cxLecturer] [cxSubject] cxRooms cxGroups 0 0).1

/-- The first block the allocator produces on the failing input. -/
def cxBlock1 : ScheduledBlock :=
  { subject_id := 1, lecturer_id := 1, room_id := 1, student_group_id := 1,
    day := 0, time_slot := .morning, block_number := 1 }

end Sched

/-! ## Theorems -/

namespace Models

/-- Testing `conflicts_with` against an existing block is exactly the
"same TimeSlot key and shared resource" condition, stated from the
existing block's side. -/
theorem ScheduledBlock.conflicts_with_iff (b e : ScheduledBlock) :
    b.conflicts_with e = true ↔
      (e.week = b.week ∧ e.day = b.day ∧ e.timeslot = b.timeslot ∧
       (e.lecturer_id = b.lecturer_id ∨ e.room_id = b.room_id ∨
        e.student_group_id = b.student_group_id)) := by
  simp only [ScheduledBlock.conflicts_with]
  by_cases hw : b.week = e.week <;> by_cases hd : b.day = e.day <;>
    by_cases ht : b.timeslot = e.timeslot <;>
    simp only [hw, hd, ht, ne_eq, not_true_eq_false, not_false_eq_true, false_or, or_false,
      or_true, true_or, if_true, if_false, decide_eq_true_eq, Bool.false_eq_true, false_iff,
      not_and, not_or] <;>
    tauto

/-- The boolean scanned by `add_block` is the existential conflict
condition over the current block list. -/
theorem Schedule.add_block_scan_iff (s : Schedule) (b : ScheduledBlock) :
    (s.blocks.any fun existing_block => b.conflicts_with existing_block) = true ↔
      ∃ e ∈ s.blocks, e.week = b.week ∧ e.day = b.day ∧ e.timeslot = b.timeslot ∧
        (e.lecturer_id = b.lecturer_id ∨ e.room_id = b.room_id ∨
         e.student_group_id = b.student_group_id) := by
  rw [List.any_eq_true]
  constructor
  · rintro ⟨e, he, hc⟩
    exact ⟨e, he, (ScheduledBlock.conflicts_with_iff b e).mp hc⟩
  · rintro ⟨e, he, hc⟩
    exact ⟨e, he, (ScheduledBlock.conflicts_with_iff b e).mpr hc⟩

/-- Characterization of `is_slot_available` as a universally quantified statement over the
current block list. -/
theorem Schedule.is_slot_available_iff (s : Schedule) (w d : Int) (ts : TimeSlot)
    (l r g : String) :
    s.is_slot_available w d ts l r g = true ↔
      ∀ bl ∈ s.blocks, ¬(bl.week = w ∧ bl.day = d ∧ bl.timeslot = ts ∧
        (bl.lecturer_id = l ∨ bl.room_id = r ∨ bl.student_group_id = g)) := by
  simp only [Schedule.is_slot_available, List.all_eq_true, decide_not, Bool.not_eq_true',
    decide_eq_false_iff_not]

end Models

/-- C2: the operation `Schedule.add_block` returns false and leaves the block list
unchanged when the candidate shares a (week, day, timeslot) key and a
lecturer, room, or student-group id with some existing block; otherwise
it appends exactly the candidate at the end and returns true. -/
theorem C2_add_block_rejects_conflicts_else_appends
    (s : Models.Schedule) (b : Models.ScheduledBlock) :
    ((∃ e ∈ s.blocks, e.week = b.week ∧ e.day = b.day ∧ e.timeslot = b.timeslot ∧
        (e.lecturer_id = b.lecturer_id ∨ e.room_id = b.room_id ∨
         e.student_group_id = b.student_group_id)) →
      s.add_block b = (false, s)) ∧
    ((¬ ∃ e ∈ s.blocks, e.week = b.week ∧ e.day = b.day ∧ e.timeslot = b.timeslot ∧
        (e.lecturer_id = b.lecturer_id ∨ e.room_id = b.room_id ∨
         e.student_group_id = b.student_group_id)) →
      s.add_block b = (true, { s with blocks := s.blocks ++ [b] })) := by
  constructor
  · intro h
    have hany := (Models.Schedule.add_block_scan_iff s b).mpr h
    simp [Models.Schedule.add_block, hany]
  · intro h
    have hany : (s.blocks.any fun e => b.conflicts_with e) = false := by
      cases hv : s.blocks.any fun e => b.conflicts_with e
      · rfl
      · exact absurd ((Models.Schedule.add_block_scan_iff s b).mp hv) h
    simp [Models.Schedule.add_block, hany]

/-- Witness for C2 at concrete inputs: a conflicting candidate is rejected
with the schedule unchanged, and a conflict-free candidate is appended. -/
theorem C2_add_block_rejects_conflicts_else_appends_witness :
    Models.sampleSchedule.add_block Models.sampleBlockB = (false, Models.sampleSchedule) ∧
    Models.sampleSchedule.add_block Models.sampleBlockC =
      (true, { Models.sampleSchedule with
                blocks := Models.sampleSchedule.blocks ++ [Models.sampleBlockC] }) := by
  constructor
  · exact (C2_add_block_rejects_conflicts_else_appends Models.sampleSchedule Models.sampleBlockB).1
      ⟨Models.sampleBlockA, by decide⟩
  · exact (C2_add_block_rejects_conflicts_else_appends Models.sampleSchedule Models.sampleBlockC).2
      (by decide)

/-- C10: the call `Schedule.add_block b` succeeds exactly when
`Schedule.is_slot_available` holds on the pre-state for `b`'s own key and
ids, so probing with `is_slot_available` before adding never needs a
rollback. -/
theorem C10_add_block_agrees_with_is_slot_available
    (s : Models.Schedule) (b : Models.ScheduledBlock) :
    (s.add_block b).1 =
      s.is_slot_available b.week b.day b.timeslot b.lecturer_id b.room_id b.student_group_id := by
  cases h : s.blocks.any fun e => b.conflicts_with e
  · have hall : ∀ bl ∈ s.blocks, ¬(bl.week = b.week ∧ bl.day = b.day ∧ bl.timeslot = b.timeslot ∧
        (bl.lecturer_id = b.lecturer_id ∨ bl.room_id = b.room_id ∨
         bl.student_group_id = b.student_group_id)) := by
      intro bl hbl hc
      have : (s.blocks.any fun e => b.conflicts_with e) = true :=
        (Models.Schedule.add_block_scan_iff s b).mpr ⟨bl, hbl, hc⟩
      simp [h] at this
    have hs := (Models.Schedule.is_slot_available_iff s b.week b.day b.timeslot
      b.lecturer_id b.room_id b.student_group_id).mpr hall
    simp [Models.Schedule.add_block, h, hs]
  · obtain ⟨e, he, hc⟩ := (Models.Schedule.add_block_scan_iff s b).mp h
    cases hv : s.is_slot_available b.week b.day b.timeslot b.lecturer_id b.room_id
        b.student_group_id
    · simp [Models.Schedule.add_block, h]
    · exact absurd hc ((Models.Schedule.is_slot_available_iff s b.week b.day b.timeslot
        b.lecturer_id b.room_id b.student_group_id).mp hv e he)


/-- C3: over a 15-week semester, the pattern {weeks "1-3", Mon [morning,
afternoon], Wed [morning]} expands to exactly 9 slots; adding the exception
{week 3, Wed, remove [morning]} gives 8; adding the blackout {weeks 2-2,
days [Mon]} gives 6 — patterns are applied first, then exceptions, then
blackouts. -/
theorem C3_pattern_exception_blackout_example_cards :
    Loader.resultCard (Loader._expand_availability Loader.exampleRaw1 15) = some 9 ∧
    Loader.resultCard (Loader._expand_availability Loader.exampleRaw2 15) = some 8 ∧
    Loader.resultCard (Loader._expand_availability Loader.exampleRaw3 15) = some 6 := by
  refine ⟨?_, ?_, ?_⟩ <;> decide

namespace Loader

/-- A monadic fold over `Except` succeeds when every step does. -/
theorem foldlM_ok {α β : Type} (f : β → α → Except String β) :
    ∀ (l : List α) (init : β), (∀ acc x, x ∈ l → exceptOk (f acc x) = true) →
      exceptOk (l.foldlM f init) = true := by
  intro l
  induction l with
  | nil => intro init _; rfl
  | cons x xs ih =>
    intro init h
    rw [List.foldlM_cons]
    cases hfx : f init x with
    | error e =>
      have hx := h init x (List.mem_cons_self x xs)
      rw [hfx] at hx
      exact absurd hx (by simp [exceptOk])
    | ok b =>
      have := ih b (fun acc y hy => h acc y (List.mem_cons_of_mem _ hy))
      simpa [hfx, Except.bind] using this

/-- A monadic map over `Except` succeeds when every element does. -/
theorem mapM_ok {α β : Type} (f : α → Except String β) :
    ∀ (l : List α), (∀ x ∈ l, exceptOk (f x) = true) → exceptOk (l.mapM f) = true := by
  intro l
  induction l with
  | nil => intro _; rfl
  | cons x xs ih =>
    intro h
    rw [List.mapM_cons]
    cases hfx : f x with
    | error e =>
      have hx := h x (List.mem_cons_self x xs)
      rw [hfx] at hx
      exact absurd hx (by simp [exceptOk])
    | ok b =>
      have hxs := ih (fun y hy => h y (List.mem_cons_of_mem _ hy))
      cases hms : xs.mapM f with
      | error e => rw [hms] at hxs; exact absurd hxs (by simp [exceptOk])
      | ok bs => simp [hfx, hms, Bind.bind, Except.bind, pure, Except.pure, exceptOk]

/-- Looking a hashable value up in `DAY_NAME_TO_INT` cannot raise. -/
theorem dictGetDay_ok (v : JVal) (h : hashableV v = true) :
    exceptOk (dictGetDay v) = true := by
  cases v <;> simp_all [hashableV, dictGetDay, exceptOk]

/-- Iterating an iterable value cannot raise. -/
theorem pyIter_ok (v : JVal) (h : iterableV v = true) :
    exceptOk (pyIter v) = true := by
  cases v <;> simp_all [iterableV, pyIter, exceptOk]

/-- Parsing a weeks expression that is falsy or a string cannot raise. -/
theorem _parse_weeks_expr_ok (v : JVal) (sw : Int)
    (h : (!pyTruthy v || isStrV v) = true) :
    exceptOk (_parse_weeks_expr v sw) = true := by
  unfold _parse_weeks_expr
  cases hv : pyTruthy v
  · simp [exceptOk]
  · rw [hv] at h
    simp only [Bool.not_true, Bool.false_or] at h
    cases v <;> simp_all [isStrV, exceptOk]

/-- A well-shaped pattern entry cannot raise. -/
theorem applyPattern_ok (sw : Int) (p : JVal) (hp : patternShapeOk p = true)
    (acc : Finset Slot3) : exceptOk (applyPattern sw acc p) = true := by
  cases p with
  | obj pf =>
    simp only [patternShapeOk, Bool.and_eq_true] at hp
    obtain ⟨hw, hd⟩ := hp
    have hw2 : (!pyTruthy (pyGet pf "weeks" (.str ("1-" ++ toString sw))) ||
                isStrV (pyGet pf "weeks" (.str ("1-" ++ toString sw)))) = true := by
      unfold pyGet at hw ⊢
      cases hfind : pf.reverse.find? fun q => q.1 = "weeks" with
      | some q => rw [hfind] at hw; exact hw
      | none => simp [isStrV]
    have hparse := _parse_weeks_expr_ok _ sw hw2
    unfold applyPattern
    cases hpe : _parse_weeks_expr (pyGet pf "weeks" (.str ("1-" ++ toString sw))) sw with
    | error e =>
      rw [hpe] at hparse
      exact absurd hparse (by simp [exceptOk])
    | ok ws =>
      have hobj : ∃ dfs, pyGetOrEmptyObj pf "days" = .obj dfs := by
        unfold pyGetOrEmptyObj
        cases hdv : pyTruthy (pyGet pf "days" (.obj [])) with
        | false => exact ⟨[], by simp [hdv]⟩
        | true =>
          rw [hdv] at hd
          simp only [Bool.not_true, Bool.false_or] at hd
          cases hval : pyGet pf "days" (.obj []) <;> rw [hval] at hd <;>
            simp_all [isObjV]
      obtain ⟨dfs, hdfs⟩ := hobj
      simp [applyPattern, hpe, hdfs, exceptOk]
  | null => rfl
  | bool b => rfl
  | int n => rfl
  | str s => rfl
  | arr xs => rfl

/-- A well-shaped exception entry cannot raise. -/
theorem applyException_ok (sw : Int) (e : JVal) (he : exceptionShapeOk e = true)
    (acc : Finset Slot3) : exceptOk (applyException sw acc e) = true := by
  cases e with
  | obj ef =>
    simp only [exceptionShapeOk, Bool.and_eq_true] at he
    obtain ⟨⟨hday, hrem⟩, hadd⟩ := he
    unfold applyException
    cases hdg : dictGetDay (pyGet ef "day" .null) with
    | error err =>
      have := dictGetDay_ok _ hday
      rw [hdg] at this
      exact absurd this (by simp [exceptOk])
    | ok day_int =>
      cases hwk : pyAsInt (pyGet ef "week" .null) with
      | none => cases day_int <;> simp [applyException, hdg, hwk, exceptOk]
      | some wk =>
        cases day_int with
        | none => simp [applyException, hdg, hwk, exceptOk]
        | some di =>
          cases hri : pyIter (pyGetOrEmptyList ef "remove") with
          | error err =>
            have := pyIter_ok _ hrem
            rw [hri] at this
            exact absurd this (by simp [exceptOk])
          | ok removes =>
            cases hai : pyIter (pyGetOrEmptyList ef "add") with
            | error err =>
              have := pyIter_ok _ hadd
              rw [hai] at this
              exact absurd this (by simp [exceptOk])
            | ok adds => simp [applyException, hdg, hwk, hri, hai, exceptOk]
  | null => rfl
  | bool b => rfl
  | int n => rfl
  | str s => rfl
  | arr xs => rfl

/-- A well-shaped blackout entry cannot raise. -/
theorem applyBlackout_ok (sw : Int) (b : JVal) (hb : blackoutShapeOk b = true)
    (acc : Finset Slot3) : exceptOk (applyBlackout sw acc b) = true := by
  cases b with
  | obj bf =>
    simp only [blackoutShapeOk] at hb
    unfold applyBlackout
    cases hf : pyAsInt (pyGet bf "from_week" .null) with
    | none => simp [applyBlackout, hf, exceptOk]
    | some f0 =>
      cases ht : pyAsInt (pyGet bf "to_week" .null) with
      | none => simp [applyBlackout, hf, ht, exceptOk]
      | some t0 =>
        cases hdi : pyIter (pyGetOrEmptyList bf "days") with
        | error err => rw [hdi] at hb; exact absurd hb (by simp)
        | ok dlist =>
          rw [hdi] at hb
          have hmm : exceptOk (dlist.mapM dictGetDay) = true := by
            refine mapM_ok _ dlist (fun x hx => dictGetDay_ok x ?_)
            exact List.all_eq_true.mp hb x hx
          cases hmv : dlist.mapM dictGetDay with
          | error err => rw [hmv] at hmm; exact absurd hmm (by simp [exceptOk])
          | ok dayOpts =>
            have hmv2 : List.mapM.loop dictGetDay dlist [] = Except.ok dayOpts := by
              simpa [List.mapM] using hmv
            simp [applyBlackout, hf, ht, hdi, hmv, hmv2, exceptOk]
  | null => rfl
  | bool b2 => rfl
  | int n => rfl
  | str s => rfl
  | arr xs => rfl

end Loader

/-- C4: the availability resolver is total only on well-shaped input.  For
dict inputs whose phase containers are iterable and whose entries carry
string-or-falsy `weeks`, dict-or-falsy `days`, hashable day names, and
iterable slot lists, `_expand_availability` returns a set, silently
skipping each individually malformed entry; every input that is neither a
list nor a dict yields the empty set.  (Ill-typed field values such as an
integer `weeks` raise, refuting the unconditional totality claim.) -/
theorem C4_expand_availability_total_on_well_shaped_input
    (raw : Loader.JVal) (sw : Int) :
    (Loader.wellShapedAvailability raw = true →
      Loader.exceptOk (Loader._expand_availability raw sw) = true) ∧
    ((Loader.isArrV raw || Loader.isObjV raw) = false →
      Loader._expand_availability raw sw = .ok ∅) := by
  constructor
  · intro hws
    cases raw with
    | obj fields =>
      simp only [Loader.wellShapedAvailability, Bool.and_eq_true] at hws
      obtain ⟨⟨hpat, hexc⟩, hblk⟩ := hws
      unfold Loader._expand_availability
      cases hpi : Loader.pyIter (Loader.pyGetOrEmptyList fields "patterns") with
      | error err => rw [hpi] at hpat; exact absurd hpat (by simp)
      | ok patterns =>
        rw [hpi] at hpat
        have h1 : Loader.exceptOk
            (patterns.foldlM (fun acc p => Loader.applyPattern sw acc p) ∅) = true :=
          Loader.foldlM_ok _ patterns ∅ (fun acc x hx =>
            Loader.applyPattern_ok sw x (List.all_eq_true.mp hpat x hx) acc)
        cases hf1 : patterns.foldlM (fun acc p => Loader.applyPattern sw acc p) ∅ with
        | error err => rw [hf1] at h1; exact absurd h1 (by simp [Loader.exceptOk])
        | ok av1 =>
          cases hei : Loader.pyIter (Loader.pyGetOrEmptyList fields "exceptions") with
          | error err => rw [hei] at hexc; exact absurd hexc (by simp)
          | ok exceptions =>
            rw [hei] at hexc
            have h2 : Loader.exceptOk
                (exceptions.foldlM (fun acc e => Loader.applyException sw acc e) av1) = true :=
              Loader.foldlM_ok _ exceptions av1 (fun acc x hx =>
                Loader.applyException_ok sw x (List.all_eq_true.mp hexc x hx) acc)
            cases hf2 : exceptions.foldlM (fun acc e => Loader.applyException sw acc e) av1 with
            | error err => rw [hf2] at h2; exact absurd h2 (by simp [Loader.exceptOk])
            | ok av2 =>
              cases hbi : Loader.pyIter (Loader.pyGetOrEmptyList fields "blackouts") with
              | error err => rw [hbi] at hblk; exact absurd hblk (by simp)
              | ok blackouts =>
                rw [hbi] at hblk
                have h3 : Loader.exceptOk
                    (blackouts.foldlM (fun acc b => Loader.applyBlackout sw acc b) av2) = true :=
                  Loader.foldlM_ok _ blackouts av2 (fun acc x hx =>
                    Loader.applyBlackout_ok sw x (List.all_eq_true.mp hblk x hx) acc)
                cases hf3 : blackouts.foldlM (fun acc b => Loader.applyBlackout sw acc b) av2 with
                | error err => rw [hf3] at h3; exact absurd h3 (by simp [Loader.exceptOk])
                | ok av3 => simp [hpi, hf1, hei, hf2, hbi, hf3, Loader.exceptOk]
    | arr items => rfl
    | null => rfl
    | bool b => rfl
    | int n => rfl
    | str s => rfl
  · intro hne
    cases raw <;> simp_all [Loader.isArrV, Loader.isObjV] <;> rfl

/-- Witness for C4: a well-shaped pattern input resolves without raising,
and a raw integer resolves to the empty set. -/
theorem C4_expand_availability_total_on_well_shaped_input_witness :
    Loader.exceptOk (Loader._expand_availability Loader.exampleRaw3 15) = true ∧
    Loader._expand_availability (.int 3) 15 = .ok ∅ := by
  constructor
  · exact (C4_expand_availability_total_on_well_shaped_input Loader.exampleRaw3 15).1
      (by decide)
  · exact (C4_expand_availability_total_on_well_shaped_input (.int 3) 15).2 (by decide)

/-- Counterexample for C4 as frozen: a pattern whose `weeks` value is the
integer 5 makes `_expand_availability` raise (Python `AttributeError` on
`.split`), so the resolver is not total over arbitrary raw values. -/
theorem C4_expand_availability_not_total_counterexample :
    Loader.exceptOk (Loader._expand_availability Loader.badWeeksRaw 15) = false := by
  decide

namespace Loader

/-- Membership in the explicit-list fold: a slot is in the result iff it
was in the accumulator or contributed by some entry. -/
theorem mem_expandList_foldl (sw : Int) :
    ∀ (items : List JVal) (acc : Finset Slot3) (x : Slot3),
      (x ∈ items.foldl (fun a item =>
          match entryVal sw item with
          | some v => insert v a
          | none => a) acc ↔
        x ∈ acc ∨ ∃ item ∈ items, entryVal sw item = some x) := by
  intro items
  induction items with
  | nil => simp
  | cons it its ih =>
    intro acc x
    rw [List.foldl_cons]
    cases hev : entryVal sw it with
    | none =>
      rw [ih]
      simp only [List.mem_cons]
      constructor
      · rintro (hx | ⟨item, hm, hc⟩)
        · exact Or.inl hx
        · exact Or.inr ⟨item, Or.inr hm, hc⟩
      · rintro (hx | ⟨item, hm | hm, hc⟩)
        · exact Or.inl hx
        · rw [hm] at hc; rw [hev] at hc; cases hc
        · exact Or.inr ⟨item, hm, hc⟩
    | some v =>
      rw [ih]
      simp only [Finset.mem_insert, List.mem_cons]
      constructor
      · rintro ((hx | hx) | ⟨item, hm, hc⟩)
        · exact Or.inr ⟨it, Or.inl rfl, by rw [hev, hx]⟩
        · exact Or.inl hx
        · exact Or.inr ⟨item, Or.inr hm, hc⟩
      · rintro (hx | ⟨item, hm | hm, hc⟩)
        · exact Or.inl (Or.inr hx)
        · rw [hm, hev] at hc
          exact Or.inl (Or.inl (Option.some_injective _ hc).symm)
        · exact Or.inr ⟨item, hm, hc⟩

/-- Characterization of one explicit-list entry's contribution: exactly the
length-3 lists with int-like week in `1..sw` and int-like day in `1..5`,
mapping the slot value through `slotOf`. -/
theorem entryVal_eq_some_iff (sw : Int) (item : JVal) (w d : Int) (ts : TimeSlot) :
    entryVal sw item = some (w, d, ts) ↔
      ∃ wv dv sv, item = .arr [wv, dv, sv] ∧ pyAsInt wv = some w ∧ pyAsInt dv = some d ∧
        1 ≤ w ∧ w ≤ sw ∧ 1 ≤ d ∧ d ≤ 5 ∧ ts = slotOf sv := by
  cases item with
  | arr xs =>
    match xs with
    | [] => simp [entryVal]
    | [a] => simp [entryVal]
    | [a, b] => simp [entryVal]
    | [a, b, c] =>
      simp only [entryVal]
      cases hwa : pyAsInt a with
      | none => simp [hwa]
      | some wi =>
        cases hdb : pyAsInt b with
        | none => simp [hwa, hdb]
        | some di =>
          simp only [hwa, hdb]
          by_cases hrange : wi < 1 ∨ wi > sw ∨ di < 1 ∨ di > 5
          · simp only [hrange, if_true]
            constructor
            · intro hc; cases hc
            · rintro ⟨wv, dv, sv, heq, hw2, hd2, h1, h2, h3, h4, hts⟩
              obtain ⟨ha, hb, hc2⟩ : wv = a ∧ dv = b ∧ sv = c := by
                injection heq with h
                injection h with h1x h
                injection h with h2x h
                injection h with h3x h
                exact ⟨h1x.symm, h2x.symm, h3x.symm⟩
              subst ha hb hc2
              rw [hwa] at hw2
              rw [hdb] at hd2
              injection hw2 with hw3
              injection hd2 with hd3
              subst hw3 hd3
              omega
          · simp only [hrange, if_false, Option.some_inj]
            push_neg at hrange
            obtain ⟨hr1, hr2, hr3, hr4⟩ := hrange
            constructor
            · intro hc
              have hw3 : wi = w := congrArg Prod.fst hc
              have hd3 : di = d := congrArg Prod.fst (congrArg Prod.snd hc)
              have hts : slotOf c = ts := congrArg Prod.snd (congrArg Prod.snd hc)
              subst hw3 hd3
              exact ⟨a, b, c, rfl, hwa, hdb, by omega, by omega, by omega, by omega, hts.symm⟩
            · rintro ⟨wv, dv, sv, heq, hw2, hd2, h1, h2, h3, h4, hts⟩
              obtain ⟨ha, hb, hc2⟩ : wv = a ∧ dv = b ∧ sv = c := by
                injection heq with h
                injection h with h1x h
                injection h with h2x h
                injection h with h3x h
                exact ⟨h1x.symm, h2x.symm, h3x.symm⟩
              subst ha hb hc2
              rw [hwa] at hw2
              rw [hdb] at hd2
              injection hw2 with hw3
              injection hd2 with hd3
              rw [hw3, hd3, hts]
    | a :: b :: c :: e :: rest => simp [entryVal]
  | null => simp [entryVal]
  | bool b => simp [entryVal]
  | int n => simp [entryVal]
  | str s => simp [entryVal]
  | obj fs => simp [entryVal]

end Loader

/-- C5 counterexample: the claim calls an entry valid when
0 ≤ week < semester_weeks, so `[[0, 1, "morning"]]` should resolve to the
one-element set containing (0, 1, morning); the code keeps only weeks in
`1..semester_weeks` and resolves it to the empty set. -/
theorem C5_week_zero_entry_dropped_counterexample :
    Loader.resultCard (Loader._expand_availability Loader.weekZeroListRaw 15) = some 0 := by
  decide

/-- C5 (amended): on an explicit list the resolver adds exactly the
length-3 entries whose week and weekday are Python ints with
1 ≤ weekday ≤ 5 and 1 ≤ week ≤ semester_weeks (not 0 ≤ week <
semester_weeks as the spec states), mapping a "morning" slot value to
morning and any other slot value to afternoon, and silently drops every
other entry; in particular `[[1,1,"morning"],[1,2,"afternoon"]]` resolves
to exactly {(1,1,morning),(1,2,afternoon)}. -/
theorem C5_explicit_list_resolution_characterized :
    (∀ (items : List Loader.JVal) (sw : Int),
       Loader._expand_availability (.arr items) sw = .ok (Loader.expandList items sw)) ∧
    (∀ (items : List Loader.JVal) (sw w d : Int) (ts : TimeSlot),
       ((w, d, ts) ∈ Loader.expandList items sw ↔
         ∃ wv dv sv, Loader.JVal.arr [wv, dv, sv] ∈ items ∧
           Loader.pyAsInt wv = some w ∧ Loader.pyAsInt dv = some d ∧
           1 ≤ w ∧ w ≤ sw ∧ 1 ≤ d ∧ d ≤ 5 ∧ ts = Loader.slotOf sv)) ∧
    Loader._expand_availability Loader.exampleListRaw 15 =
      .ok {(1, 1, TimeSlot.morning), (1, 2, TimeSlot.afternoon)} := by
  refine ⟨fun items sw => rfl, fun items sw w d ts => ?_, ?_⟩
  · rw [Loader.expandList, Loader.mem_expandList_foldl]
    simp only [Finset.not_mem_empty, false_or]
    constructor
    · rintro ⟨item, hm, hc⟩
      obtain ⟨wv, dv, sv, heq, rest⟩ := (Loader.entryVal_eq_some_iff sw item w d ts).mp hc
      exact ⟨wv, dv, sv, heq ▸ hm, rest⟩
    · rintro ⟨wv, dv, sv, hm, rest⟩
      exact ⟨_, hm, (Loader.entryVal_eq_some_iff sw _ w d ts).mpr ⟨wv, dv, sv, rfl, rest⟩⟩
  · show Except.ok _ = _
    exact congrArg Except.ok (by decide)

/-- Witness for C5 at a concrete input: by the characterization,
(1, 1, morning) is a member of the expansion of `[[1, 1, "morning"]]`. -/
theorem C5_explicit_list_resolution_characterized_witness :
    (1, 1, TimeSlot.morning) ∈
      Loader.expandList [Loader.JVal.arr [.int 1, .int 1, .str "morning"]] 15 := by
  exact (C5_explicit_list_resolution_characterized.2.1
      [Loader.JVal.arr [.int 1, .int 1, .str "morning"]] 15 1 1 TimeSlot.morning).mpr
    ⟨.int 1, .int 1, .str "morning", List.mem_singleton.mpr rfl, rfl, rfl,
     by omega, by omega, by omega, by omega, rfl⟩

/-- C6 counterexample: the day-name mapping is not case-insensitive — the
pattern day key "monday" expands to no slots while "Monday" expands to one,
at the same weeks and semester length. -/
theorem C6_lower_case_day_name_skipped_counterexample :
    Loader.resultCard (Loader._expand_availability Loader.lowerCaseDayRaw 15) = some 0 ∧
    Loader.resultCard (Loader._expand_availability Loader.titleCaseDayRaw 15) = some 1 := by
  constructor <;> decide

/-- C6 (amended): weekday names are mapped to 1–5 by exact, case-sensitive
lookup of the ten strings Mon/Monday … Fri/Friday (title-case three-letter
prefix or full English name); every recognized name is literally a table
key, pattern day keys are whitespace-stripped before lookup, and an
unrecognized name is skipped (a pattern day contributes nothing; an
exception entry whose day is unknown is a no-op). -/
theorem C6_day_name_mapping_case_sensitive_exact :
    (Loader.dayNameToInt "Mon" = some 1 ∧ Loader.dayNameToInt "Monday" = some 1 ∧
     Loader.dayNameToInt "Tue" = some 2 ∧ Loader.dayNameToInt "Tuesday" = some 2 ∧
     Loader.dayNameToInt "Wed" = some 3 ∧ Loader.dayNameToInt "Wednesday" = some 3 ∧
     Loader.dayNameToInt "Thu" = some 4 ∧ Loader.dayNameToInt "Thursday" = some 4 ∧
     Loader.dayNameToInt "Fri" = some 5 ∧ Loader.dayNameToInt "Friday" = some 5) ∧
    (Loader.dayNameToInt "mon" = none ∧ Loader.dayNameToInt "monday" = none ∧
     Loader.dayNameToInt "MONDAY" = none ∧ Loader.dayNameToInt "friday" = none) ∧
    (∀ s : String, Loader.dayNameToInt s = none ∨
       ∃ p ∈ Loader.DAY_NAME_TO_INT, s = p.1 ∧ Loader.dayNameToInt s = some p.2) ∧
    (∀ (ws : Finset Int) (acc : Finset Loader.Slot3) (key : String) (slots : Loader.JVal),
       Loader.dayNameToInt (Loader.pyStrip key) = none →
       Loader.patternDayStep ws acc (key, slots) = acc) ∧
    (∀ (sw : Int) (acc : Finset Loader.Slot3) (ef : List (String × Loader.JVal)),
       Loader.dictGetDay (Loader.pyGet ef "day" .null) = .ok none →
       Loader.applyException sw acc (.obj ef) = .ok acc) := by
  refine ⟨by decide, by decide, fun s => ?_, fun ws acc key slots h => ?_, 
    fun sw acc ef h => ?_⟩
  · unfold Loader.dayNameToInt
    cases hf : Loader.DAY_NAME_TO_INT.find? (fun p => p.1 = s) with
    | none => exact Or.inl rfl
    | some p =>
      refine Or.inr ⟨p, List.mem_of_find?_eq_some hf, ?_, rfl⟩
      have := List.find?_some hf
      simp only [decide_eq_true_eq] at this
      exact this.symm
  · simp [Loader.patternDayStep, h]
  · cases hwk : Loader.pyAsInt (Loader.pyGet ef "week" .null) <;>
      simp [Loader.applyException, h, hwk]

/-- Witness for C6 at concrete inputs: an unrecognized pattern key adds
nothing, and an exception entry naming "monday" is a no-op. -/
theorem C6_day_name_mapping_case_sensitive_exact_witness :
    Loader.patternDayStep {1} ∅ ("xyz", .arr []) = ∅ ∧
    Loader.applyException 15 ∅ (.obj [("week", .int 1), ("day", .str "monday")]) = .ok ∅ := by
  constructor
  · exact C6_day_name_mapping_case_sensitive_exact.2.2.2.1 {1} ∅ "xyz" (.arr []) (by decide)
  · exact C6_day_name_mapping_case_sensitive_exact.2.2.2.2 15 ∅
      [("week", .int 1), ("day", .str "monday")] rfl

/-- C1: evaluation at the failing input.  With one lecturer available only
on one morning, a 2-block subject, two rooms and two groups, the allocator
produces two blocks at the same day and time slot carrying the same
lecturer id (the inner loop over student groups never re-checks the
lecturer), violating the no-double-booking property the spec states. -/
theorem C1_same_slot_same_lecturer_on_failing_input :
    Sched.cxSchedule.length = 2 ∧
    ∃ b1 ∈ Sched.cxSchedule, ∃ b2 ∈ Sched.cxSchedule, b1 ≠ b2 ∧ b1.day = b2.day ∧
      b1.time_slot = b2.time_slot ∧ b1.lecturer_id = b2.lecturer_id := by
  constructor
  · decide
  · decide

/-- C8: scheduling is deterministic — the allocator is a pure function of
the entities and semester bounds (it draws no randomness, so the seed is
irrelevant), hence identical inputs produce identical ScheduledBlock
sequences, in the same order with the same assignments. -/
theorem C8_schedule_subjects_deterministic
    (l1 l2 : List Sched.Lecturer) (s1 s2 : List Sched.Subject)
    (r1 r2 : List Sched.Room) (g1 g2 : List Sched.StudentGroup)
    (a1 a2 b1 b2 : Sched.Date)
    (hl : l1 = l2) (hs : s1 = s2) (hr : r1 = r2) (hg : g1 = g2)
    (ha : a1 = a2) (hb : b1 = b2) :
    (Sched.schedule_subjects l1 s1 r1 g1 a1 b1).1 =
      (Sched.schedule_subjects l2 s2 r2 g2 a2 b2).1 := by
  subst hl hs hr hg ha hb
  rfl

/-- Witness for C8 at the concrete failing-input entities. -/
theorem C8_schedule_subjects_deterministic_witness :
    (Sched.schedule_subjects [Sched.cxLecturer] [Sched.cxSubject] Sched.cxRooms
        Sched.cxGroups 0 0).1 =
      (Sched.schedule_subjects [Sched.cxLecturer] [Sched.cxSubject] Sched.cxRooms
        Sched.cxGroups 0 0).1 :=
  C8_schedule_subjects_deterministic [Sched.cxLecturer] [Sched.cxLecturer]
    [Sched.cxSubject] [Sched.cxSubject] Sched.cxRooms Sched.cxRooms Sched.cxGroups
    Sched.cxGroups 0 0 0 0 rfl rfl rfl rfl rfl rfl

/-- C9 counterexample: the run mutates the Lecturer entities —
`assign_preferred_days_to_lecturers` writes `preferred_days`, so the
lecturer list after `schedule_subjects` differs from the input (here the
lecturer starts with no preferred days and ends preferring weekday 6). -/
theorem C9_lecturers_mutated_counterexample :
    (Sched.schedule_subjects [Sched.cxLecturer] [Sched.cxSubject] Sched.cxRooms
        Sched.cxGroups 0 0).2 ≠ [Sched.cxLecturer] ∧
    (Sched.schedule_subjects [Sched.cxLecturer] [Sched.cxSubject] Sched.cxRooms
        Sched.cxGroups 0 0).2.map (fun l => l.preferred_days) = [[6]] ∧
    [Sched.cxLecturer].map (fun l => l.preferred_days) = [[]] := by
  refine ⟨by decide, by decide, by decide⟩

namespace Sched

/-- Membership in a stable insertion step. -/
theorem mem_stableInsert {α : Type} (gt : α → α → Bool) (a x : α) :
    ∀ l : List α, x ∈ stableInsert gt a l ↔ x = a ∨ x ∈ l := by
  intro l
  induction l with
  | nil => simp [stableInsert]
  | cons b bs ih =>
    simp only [stableInsert]
    by_cases h : gt a b = true
    · simp [h]
    · simp only [Bool.not_eq_true] at h
      simp only [h, Bool.false_eq_true, if_false, List.mem_cons, ih]
      tauto

/-- Membership in the insertion-sort fold. -/
theorem mem_stableSortBy_foldl {α : Type} (gt : α → α → Bool) (x : α) :
    ∀ (l acc : List α),
      x ∈ l.foldl (fun acc a => stableInsert gt a acc) acc ↔ x ∈ acc ∨ x ∈ l := by
  intro l
  induction l with
  | nil => simp
  | cons a as ih =>
    intro acc
    rw [List.foldl_cons, ih, mem_stableInsert]
    simp only [List.mem_cons]
    tauto

/-- A stable sort neither adds nor removes elements. -/
theorem mem_stableSortBy {α : Type} (gt : α → α → Bool) (x : α) (l : List α) :
    x ∈ stableSortBy gt l ↔ x ∈ l := by
  rw [stableSortBy, mem_stableSortBy_foldl]
  simp

/-- One assignment step changes only `preferred_days`. -/
theorem assignOne_core (usage : Int → Int) (l : Lecturer) :
    lecturerCore (assignOne usage l).1 = lecturerCore l := by
  simp only [assignOne]
  split <;> rfl

/-- Every update produced by `computeAssignments` carries the index of a
visited pair and a lecturer with the same core. -/
theorem computeAssignments_mem :
    ∀ (pairs : List (Nat × Lecturer)) (usage : Int → Int) (u : Nat × Lecturer),
      u ∈ computeAssignments pairs usage →
      ∃ p ∈ pairs, u.1 = p.1 ∧ lecturerCore u.2 = lecturerCore p.2 := by
  intro pairs
  induction pairs with
  | nil =>
    intro usage u h
    cases h
  | cons p rest ih =>
    intro usage u h
    obtain ⟨i, l⟩ := p
    simp only [computeAssignments, List.mem_cons] at h
    rcases h with h | h
    · exact ⟨(i, l), List.mem_cons_self _ _, by rw [h], by rw [h]; exact assignOne_core _ _⟩
    · obtain ⟨q, hq, h1, h2⟩ := ih _ u h
      exact ⟨q, List.mem_cons_of_mem _ hq, h1, h2⟩

/-- The post-assignment lecturer at each position has the core of the
original lecturer at that position. -/
theorem assign_preferred_days_core_pointwise (lecturers : List Lecturer)
    (p : Nat × Lecturer) (hp : p ∈ lecturers.enum) :
    lecturerCore
      (match (computeAssignments
          (stableSortBy (fun a b => b.2.importance < a.2.importance) lecturers.enum)
          (fun _ => 0)).find? (fun u => u.1 = p.1) with
       | some u => u.2
       | none => p.2) = lecturerCore p.2 := by
  cases hf : (computeAssignments
      (stableSortBy (fun a b => b.2.importance < a.2.importance) lecturers.enum)
      (fun _ => 0)).find? (fun u => u.1 = p.1) with
  | none => rfl
  | some u =>
    have hu : u ∈ computeAssignments
        (stableSortBy (fun a b => b.2.importance < a.2.importance) lecturers.enum)
        (fun _ => 0) := List.mem_of_find?_eq_some hf
    have hidx : u.1 = p.1 := by
      have := List.find?_some hf
      simpa using this
    obtain ⟨q, hq, hq1, hq2⟩ := computeAssignments_mem _ _ u hu
    have hqe : q ∈ lecturers.enum := (mem_stableSortBy _ _ _).mp hq
    have hqp : q.1 = p.1 := by rw [← hq1, hidx]
    have hsame : q.2 = p.2 := by
      have h1 : lecturers[q.1]? = some q.2 := by
        simpa using List.mem_enum_iff_getElem?.mp hqe
      have h2 : lecturers[p.1]? = some p.2 := by
        simpa using List.mem_enum_iff_getElem?.mp hp
      rw [hqp] at h1
      rw [h1] at h2
      exact Option.some_injective _ h2
    rw [hq2, hsame]

/-- Assigning preferred days preserves every field except
`preferred_days`, positionally. -/
theorem assign_preferred_days_core_map (lecturers : List Lecturer) :
    (assign_preferred_days_to_lecturers lecturers).map lecturerCore =
      lecturers.map lecturerCore := by
  unfold assign_preferred_days_to_lecturers
  rw [List.map_map]
  have hcongr : ∀ p ∈ lecturers.enum,
      (lecturerCore ∘ fun p : Nat × Lecturer =>
        match (computeAssignments
            (stableSortBy (fun a b => b.2.importance < a.2.importance) lecturers.enum)
            (fun _ => 0)).find? (fun u => u.1 = p.1) with
        | some u => u.2
        | none => p.2) p = (lecturerCore ∘ Prod.snd) p := by
    intro p hp
    exact assign_preferred_days_core_pointwise lecturers p hp
  rw [List.map_congr_left hcongr, ← List.map_map, List.enum_map_snd]

/-- Every post-assignment lecturer shares its core with some input
lecturer. -/
theorem assign_preferred_days_mem_core (lecturers : List Lecturer) (l2 : Lecturer)
    (h : l2 ∈ assign_preferred_days_to_lecturers lecturers) :
    ∃ l0 ∈ lecturers, lecturerCore l2 = lecturerCore l0 := by
  unfold assign_preferred_days_to_lecturers at h
  obtain ⟨p, hp, hf⟩ := List.mem_map.mp h
  refine ⟨p.2, ?_, ?_⟩
  · have hg : lecturers[p.1]? = some p.2 := by
      simpa using List.mem_enum_iff_getElem?.mp hp
    obtain ⟨hlt, hEq⟩ := List.getElem?_eq_some.mp hg
    exact hEq ▸ List.getElem_mem hlt
  · rw [← hf]
    exact assign_preferred_days_core_pointwise lecturers p hp

/-- Availability queries depend only on the lecturer's core. -/
theorem is_available_of_core_eq {l1 l2 : Lecturer}
    (h : lecturerCore l1 = lecturerCore l2) (d : Date) (t : TimeSlot) :
    l1.is_available d t = l2.is_available d t := by
  have hav : l1.availability = l2.availability :=
    congrArg (fun c => c.2.2.2.2) h
  simp [Lecturer.is_available, Lecturer.availabilityAt, hav]

/-- Blocks appended by the group loop carry the lecturer's id and the
loop's day and slot. -/
theorem tryGroups_mem_origin (lect : Lecturer) (subj : Subject) (day : Date)
    (ts : TimeSlot) (rooms : List Room) :
    ∀ (groups : List StudentGroup) (schedule : List ScheduledBlock) (count : Int)
      (b : ScheduledBlock),
      b ∈ (tryGroups lect subj day ts rooms groups schedule count).1 →
      b ∈ schedule ∨ (b.lecturer_id = lect.id ∧ b.day = day ∧ b.time_slot = ts) := by
  intro groups
  induction groups with
  | nil =>
    intro schedule count b hb
    exact Or.inl hb
  | cons g gs ih =>
    intro schedule count b hb
    simp only [tryGroups] at hb
    by_cases h1 : count ≥ subj.required_blocks
    · rw [if_pos h1] at hb
      exact Or.inl hb
    · rw [if_neg h1] at hb
      by_cases h2 : ¬ is_student_group_available schedule g.id day ts = true
      · rw [if_pos h2] at hb
        exact ih _ _ b hb
      · rw [if_neg h2] at hb
        cases hroom : find_available_room rooms schedule day ts with
        | none =>
          rw [hroom] at hb
          exact ih _ _ b hb
        | some room_id =>
          rw [hroom] at hb
          rcases ih _ _ b hb with h3 | h3
          · rcases List.mem_append.mp h3 with h4 | h4
            · exact Or.inl h4
            · rw [List.mem_singleton.mp h4]
              exact Or.inr ⟨rfl, rfl, rfl⟩
          · exact Or.inr h3

/-- Blocks appended by the slot loop carry the lecturer's id and a
(day, slot) at which the lecturer is available. -/
theorem trySlots_mem_origin (lect : Lecturer) (subj : Subject) (day : Date)
    (rooms : List Room) (groups : List StudentGroup) :
    ∀ (slots : List TimeSlot) (schedule : List ScheduledBlock) (count : Int)
      (b : ScheduledBlock),
      b ∈ (trySlots lect subj day rooms groups slots schedule count).1 →
      b ∈ schedule ∨
        (b.lecturer_id = lect.id ∧ lect.is_available b.day b.time_slot = true) := by
  intro slots
  induction slots with
  | nil =>
    intro schedule count b hb
    exact Or.inl hb
  | cons ts rest ih =>
    intro schedule count b hb
    simp only [trySlots] at hb
    by_cases h1 : count ≥ subj.required_blocks
    · rw [if_pos h1] at hb
      exact Or.inl hb
    · rw [if_neg h1] at hb
      rcases ih _ _ b hb with hb2 | hP
      · by_cases h2 : ¬ lect.is_available day ts = true
        · rw [if_pos h2] at hb2
          exact Or.inl hb2
        · rw [if_neg h2] at hb2
          push_neg at h2
          rcases tryGroups_mem_origin lect subj day ts rooms groups schedule count b hb2
            with h3 | ⟨hid, hday, hts⟩
          · exact Or.inl h3
          · refine Or.inr ⟨hid, ?_⟩
            rw [hday, hts]
            exact h2
      · exact Or.inr hP

/-- Blocks appended by a day pass carry the lecturer's id and a key at
which the lecturer is available. -/
theorem passDays_mem_origin (lect : Lecturer) (subj : Subject) (rooms : List Room)
    (groups : List StudentGroup) (wantPreferred : Bool) :
    ∀ (days : List Date) (schedule : List ScheduledBlock) (count : Int)
      (b : ScheduledBlock),
      b ∈ (passDays lect subj rooms groups wantPreferred days schedule count).1 →
      b ∈ schedule ∨
        (b.lecturer_id = lect.id ∧ lect.is_available b.day b.time_slot = true) := by
  intro days
  induction days with
  | nil =>
    intro schedule count b hb
    exact Or.inl hb
  | cons day rest ih =>
    intro schedule count b hb
    simp only [passDays] at hb
    by_cases h1 : count ≥ subj.required_blocks
    · rw [if_pos h1] at hb
      exact Or.inl hb
    · rw [if_neg h1] at hb
      by_cases h2 : lect.is_preferred_day day ≠ wantPreferred
      · rw [if_pos h2] at hb
        exact ih _ _ b hb
      · rw [if_neg h2] at hb
        rcases ih _ _ b hb with hb2 | hP
        · rcases trySlots_mem_origin lect subj day rooms groups
              [TimeSlot.morning, TimeSlot.afternoon] schedule count b hb2 with h3 | h3
          · exact Or.inl h3
          · exact Or.inr h3
        · exact Or.inr hP

/-- Blocks appended while scheduling one lecturer carry that lecturer's id
and a key at which the lecturer is available. -/
theorem scheduleLecturer_mem_origin (subjects : List Subject) (rooms : List Room)
    (groups : List StudentGroup) (semester_days : List Date) (lect : Lecturer)
    (schedule : List ScheduledBlock) (b : ScheduledBlock)
    (hb : b ∈ scheduleLecturer subjects rooms groups semester_days schedule lect) :
    b ∈ schedule ∨
      (b.lecturer_id = lect.id ∧ lect.is_available b.day b.time_slot = true) := by
  unfold scheduleLecturer at hb
  cases hs : subjectsGet subjects lect.subject_id with
  | none =>
    rw [hs] at hb
    exact Or.inl hb
  | some subj =>
    rw [hs] at hb
    dsimp only at hb
    by_cases h1 : (passDays lect subj rooms groups true semester_days schedule 0).2 <
        subj.required_blocks
    · rw [if_pos h1] at hb
      rcases passDays_mem_origin lect subj rooms groups false _ _ _ b hb with h2 | hP
      · exact passDays_mem_origin lect subj rooms groups true _ _ _ b h2
      · exact Or.inr hP
    · rw [if_neg h1] at hb
      exact passDays_mem_origin lect subj rooms groups true _ _ _ b hb

/-- Blocks produced by the per-lecturer fold come from the initial schedule
or from one of the folded lecturers. -/
theorem foldl_scheduleLecturer_mem (subjects : List Subject) (rooms : List Room)
    (groups : List StudentGroup) (semester_days : List Date) :
    ∀ (ordered : List Lecturer) (schedule : List ScheduledBlock) (b : ScheduledBlock),
      b ∈ ordered.foldl
        (fun sched l => scheduleLecturer subjects rooms groups semester_days sched l)
        schedule →
      b ∈ schedule ∨
        ∃ l ∈ ordered, b.lecturer_id = l.id ∧ l.is_available b.day b.time_slot = true := by
  intro ordered
  induction ordered with
  | nil =>
    intro schedule b hb
    exact Or.inl hb
  | cons l ls ih =>
    intro schedule b hb
    rw [List.foldl_cons] at hb
    rcases ih _ b hb with h2 | ⟨l2, hl2, hP⟩
    · rcases scheduleLecturer_mem_origin subjects rooms groups semester_days l schedule b h2
        with h3 | hP
      · exact Or.inl h3
      · exact Or.inr ⟨l, List.mem_cons_self _ _, hP⟩
    · exact Or.inr ⟨l2, List.mem_cons_of_mem _ hl2, hP⟩

end Sched

/-- C7: every block placed by `Scheduler.schedule_subjects` has its
lecturer available at the block's day and time slot according to that
lecturer's availability calendar (the allocator guards every placement
with `lecturer.is_available`; this holds for all lecturers, hence in
particular for priority lecturers). -/
theorem C7_every_block_lecturer_available
    (lecturers : List Sched.Lecturer) (subjects : List Sched.Subject)
    (rooms : List Sched.Room) (groups : List Sched.StudentGroup)
    (s e : Sched.Date) (b : Sched.ScheduledBlock)
    (hb : b ∈ (Sched.schedule_subjects lecturers subjects rooms groups s e).1) :
    ∃ l ∈ lecturers, l.id = b.lecturer_id ∧ l.is_available b.day b.time_slot = true := by
  have hb2 : b ∈ (Sched.get_top_lecturers (Sched.assign_preferred_days_to_lecturers lecturers) 5 ++
      Sched.stableSortBy (fun a b => b.importance < a.importance)
        ((Sched.assign_preferred_days_to_lecturers lecturers).filter (fun l =>
          ¬ ((Sched.get_top_lecturers (Sched.assign_preferred_days_to_lecturers lecturers) 5).map
              (fun l => l.id)).contains l.id))).foldl
      (fun sched l => Sched.scheduleLecturer subjects rooms groups
        (Sched.get_available_days s e) sched l) [] := hb
  rcases Sched.foldl_scheduleLecturer_mem subjects rooms groups
      (Sched.get_available_days s e) _ [] b hb2 with h0 | ⟨l, hl, hid, hav⟩
  · cases h0
  · have hl2 : l ∈ Sched.assign_preferred_days_to_lecturers lecturers := by
      rcases List.mem_append.mp hl with h1 | h1
      · exact (Sched.mem_stableSortBy _ _ _).mp (List.take_subset _ _ h1)
      · exact List.mem_of_mem_filter ((Sched.mem_stableSortBy _ _ _).mp h1)
    obtain ⟨l0, hl0, hcore⟩ := Sched.assign_preferred_days_mem_core lecturers l hl2
    refine ⟨l0, hl0, ?_, ?_⟩
    · have : l.id = l0.id := congrArg (fun c => c.1) hcore
      rw [← this, ← hid]
    · rw [← Sched.is_available_of_core_eq hcore]
      exact hav

/-- Witness for C7: on the failing-input entities the first produced block
is covered by the input lecturer's availability. -/
theorem C7_every_block_lecturer_available_witness :
    ∃ l ∈ [Sched.cxLecturer], l.id = Sched.cxBlock1.lecturer_id ∧
      l.is_available Sched.cxBlock1.day Sched.cxBlock1.time_slot = true :=
  C7_every_block_lecturer_available [Sched.cxLecturer] [Sched.cxSubject] Sched.cxRooms
    Sched.cxGroups 0 0 Sched.cxBlock1 (by decide)

/-- C9 (amended): an allocation run leaves every Lecturer field except
`preferred_days` unchanged, positionally — id, name, subject id,
importance and the availability calendar are read-only; the Subject, Room
and StudentGroup inputs are never written at all (the embedding threads
them unchanged); only the schedule and the lecturers' `preferred_days` are
written. -/
theorem C9_entities_read_only_except_preferred_days
    (lecturers : List Sched.Lecturer) (subjects : List Sched.Subject)
    (rooms : List Sched.Room) (groups : List Sched.StudentGroup)
    (s e : Sched.Date) :
    ((Sched.schedule_subjects lecturers subjects rooms groups s e).2).map
        Sched.lecturerCore =
      lecturers.map Sched.lecturerCore :=
  Sched.assign_preferred_days_core_map lecturers

end Planner
